import Mathlib

/-!
Verification of the Balanced Selection Engine of `build_history_csv.py`.

Shallow embedding conventions:
* Python strings are Lean `String`s; case-insensitive substring tests work on
  `List Char` obtained from `String.data`, with `Char.toLower` (the term lists
  involved are pure ASCII, where Lean and Python lowercasing agree).
* Python floats are embedded as exact rationals `ℚ`.  `int(x)` on a float is
  truncation towards zero, embedded by `pyInt`.
* Python list slicing `l[:n]` (which treats a negative `n` as counting from
  the end) is embedded by `pyTake`.
* `list.sort(key=..., reverse=True)` is a stable descending sort; it is
  embedded as `List.insertionSort` with the reversed lexicographic order
  `recGE` (Mathlib's insertion sort is stable, which pins down the function
  uniquely for the total preorder used here).
* The only operations of `select_for_day` that could raise at runtime are the
  two list indexings inside the repair loop; `select_for_day?` mirrors the
  function in an `Option` monad where any out-of-range indexing yields
  `none`, so "raises no error" is the statement `select_for_day? = some _`.
-/

/-- Substring test: Python `needle in hay` on strings as char lists. -/
def isSubstr (needle : List Char) : List Char → Bool
  | [] => needle.isEmpty
  | c :: t => needle.isPrefixOf (c :: t) || isSubstr needle t

/-- Python `s.lower()` (ASCII; the configured term lists are ASCII). -/
def lowerL (s : String) : List Char :=
  s.data.map Char.toLower

/-- Python `any(term in hay for term in terms)`. -/
def containsAny (hay : List Char) (terms : List String) : Bool :=
  terms.any (fun t => isSubstr t.data hay)

/-- `EXCLUDE_OBSERVANCES` from the source, transcribed verbatim. -/
def EXCLUDE_OBSERVANCES : List String :=
  ["festival", "observance", "holiday", "feast", "day of", "saint ", "eid", "diwali", "holi",
   "janmashtami", "navroz", "christmas", "easter", "good friday", "ramadan", "ramzan",
   "gurpurab", "baisakhi", "pongal", "onam", "durga puja", "ganesh chaturthi", "mahashivratri",
   "mahavir jayanti", "buddha purnima", "mahotsav"]

/-- `INDIA_KEYWORDS` from the source, transcribed verbatim. -/
def INDIA_KEYWORDS : List String :=
  ["india", "indian", "bharat", "delhi", "mumbai", "bombay", "calcutta", "kolkata", "madras",
   "chennai", "bengal", "punjab", "assam", "hyderabad", "mysore", "travancore", "awadh",
   "gujarat", "maharashtra", "isro", "drdo", "incospar", "iit", "iisc", "inc ", "congress",
   "bjp", "nehru", "gandhi", "ambedkar", "bhagat singh", "subhas", "tilak", "patel", "swaraj",
   "satyagraha", "quit india", "swadeshi", "dandi", "ina", "azad hind", "hockey", "cricket"]

/-- A raw event record `{title, desc, src}` as produced by the page parser. -/
structure RawRecord where
  title : String
  desc : String
  src : String
deriving DecidableEq, Repr

/-- A scored record: the raw fields plus `score` and `is_india`. -/
structure Scored where
  title : String
  desc : String
  src : String
  score : ℚ
  is_india : Bool
deriving DecidableEq, Repr

/-- `india_score` from the source: +50 for a keyword hit in the lowered text,
plus `min(len(text)/200, 10)`. -/
def india_score (text : String) : ℚ :=
  (if containsAny (lowerL text) INDIA_KEYWORDS then (50 : ℚ) else 0)
    + min ((text.length : ℚ) / 200) 10

/-- Scoring step of the dedup loop:
`{**r, "score": s, "is_india": s >= 50.0}` with `s = india_score(f"{title} {desc}")`. -/
def mkScored (r : RawRecord) : Scored :=
  let s := india_score (r.title ++ " " ++ r.desc)
  ⟨r.title, r.desc, r.src, s, decide ((50 : ℚ) ≤ s)⟩

/-- Forget the derived fields again (used to feed a Selection back in). -/
def toRaw (r : Scored) : RawRecord :=
  ⟨r.title, r.desc, r.src⟩

/-- The dedup key `(r["title"], r["desc"])`. -/
def recKey (r : Scored) : String × String :=
  (r.title, r.desc)

/-- The dedup-and-score loop of `select_for_day` (lines 120-128): first
occurrence of each `(title, desc)` key wins, later duplicates are dropped;
kept records are scored.  `seen` is the accumulated key set. -/
def dedupScore (seen : List (String × String)) : List RawRecord → List Scored
  | [] => []
  | r :: rs =>
    if (r.title, r.desc) ∈ seen then dedupScore seen rs
    else mkScored r :: dedupScore ((r.title, r.desc) :: seen) rs

/-- The Python sort key `(x["is_india"], x["score"])`. -/
def sortKey (r : Scored) : Bool × ℚ :=
  (r.is_india, r.score)

/-- Python tuple `≤` on `(bool, float)` keys: `False < True`, then the score. -/
def keyLE (x y : Bool × ℚ) : Prop :=
  (x.1 = false ∧ y.1 = true) ∨ (x.1 = y.1 ∧ x.2 ≤ y.2)

instance : DecidableRel keyLE := fun x y => by
  unfold keyLE
  infer_instance

/-- `a` may come before `b` in the descending sort: `sortKey b ≤ sortKey a`. -/
def recGE (a b : Scored) : Prop :=
  keyLE (sortKey b) (sortKey a)

instance : DecidableRel recGE := fun a b =>
  inferInstanceAs (Decidable (keyLE (sortKey b) (sortKey a)))

/-- `items.sort(key=lambda x: (x["is_india"], x["score"]), reverse=True)`:
a stable descending sort. -/
def sortRecs (l : List Scored) : List Scored :=
  List.insertionSort recGE l

/-- Python `int()` on a (here: rational) number: truncation towards zero. -/
def pyInt (q : ℚ) : ℤ :=
  if 0 ≤ q then ⌊q⌋ else ⌈q⌉

/-- `int(total * ratio)`, the quota target computation (lines 132-133). -/
def regionalTarget (total : ℕ) (ratio : ℚ) : ℤ :=
  pyInt ((total : ℚ) * ratio)

/-- Python slicing `l[:n]` with an `int` bound: a negative bound counts from
the end of the list. -/
def pyTake (l : List α) (n : ℤ) : List α :=
  if 0 ≤ n then l.take n.toNat else l.take (l.length - n.natAbs)

/-- Number of regional records in a list: `sum(1 for i in l if i["is_india"])`. -/
def regionalCount (l : List Scored) : ℕ :=
  (l.filter (fun r => r.is_india)).length

/-- Greedy fill (lines 138-142): up to `th` regional items, then backfill
with global items when the result is still shorter than `total`. -/
def greedyFill (india global : List Scored) (total : ℕ) (th : ℤ) : List Scored :=
  let selected := pyTake india th
  let need : ℤ := (total : ℤ) - selected.length
  if 0 < need then selected ++ pyTake global need else selected

/-- The low-bound repair loop (lines 148-155).  The argument `fuel` is
`gi + 1` where `gi` is the scan index, so `fuel = 0` means `gi < 0`.
`selected.getD`-style fall-back is irrelevant: the index is always in
range (see `repairLoop?` and the no-error theorem). -/
def repairLoop (india : List Scored) : List Scored → ℕ → ℤ → ℕ → List Scored
  | selected, _, _, 0 => selected
  | selected, src, replace, fuel + 1 =>
    if 0 < replace ∧ src < india.length then
      match selected[fuel]? with
      | none => selected
      | some r =>
        if r.is_india then
          repairLoop india selected src replace fuel
        else
          repairLoop india (selected.set fuel (india.getD src r)) (src + 1) (replace - 1) fuel
    else selected

/-- The low-bound repair step (lines 144-155): entered only when the current
regional count is below the low target and unused regional items exist. -/
def applyRepair (india : List Scored) (tl : ℤ) (selected : List Scored) : List Scored :=
  let ind_count := regionalCount selected
  if (ind_count : ℤ) < tl ∧ ind_count < india.length then
    repairLoop india selected ind_count (tl - ind_count) selected.length
  else selected

/-- `select_for_day(raw, min_count, max_count, ind_low, ind_high)`
(lines 116-159), with counts as naturals (the data model demands
non-negative counts) and ratios as exact rationals. -/
def select_for_day (raw : List RawRecord) (min_count max_count : ℕ)
    (ind_low ind_high : ℚ) : List Scored :=
  if raw = [] then []
  else
    let items := sortRecs (dedupScore [] raw)
    let total := max min_count (min max_count items.length)
    let tl := regionalTarget total ind_low
    let th := regionalTarget total ind_high
    let india_items := items.filter (fun i => i.is_india)
    let global_items := items.filter (fun i => !i.is_india)
    (sortRecs (applyRepair india_items tl (greedyFill india_items global_items total th))).take
      total

/-- Repair loop in an error monad: `none` when an indexing would raise. -/
def repairLoop? (india : List Scored) : List Scored → ℕ → ℤ → ℕ → Option (List Scored)
  | selected, _, _, 0 => some selected
  | selected, src, replace, fuel + 1 =>
    if 0 < replace ∧ src < india.length then
      match selected[fuel]?, india[src]? with
      | some r, some x =>
        if r.is_india then
          repairLoop? india selected src replace fuel
        else
          repairLoop? india (selected.set fuel x) (src + 1) (replace - 1) fuel
      | _, _ => none
    else some selected

/-- `applyRepair` in the error monad. -/
def applyRepair? (india : List Scored) (tl : ℤ) (selected : List Scored) :
    Option (List Scored) :=
  let ind_count := regionalCount selected
  if (ind_count : ℤ) < tl ∧ ind_count < india.length then
    repairLoop? india selected ind_count (tl - ind_count) selected.length
  else some selected

/-- `select_for_day` in the error monad: `none` whenever the Python function
would raise an exception. -/
def select_for_day? (raw : List RawRecord) (min_count max_count : ℕ)
    (ind_low ind_high : ℚ) : Option (List Scored) :=
  if raw = [] then some []
  else
    let items := sortRecs (dedupScore [] raw)
    let total := max min_count (min max_count items.length)
    let tl := regionalTarget total ind_low
    let th := regionalTarget total ind_high
    let india_items := items.filter (fun i => i.is_india)
    let global_items := items.filter (fun i => !i.is_india)
    (applyRepair? india_items tl (greedyFill india_items global_items total th)).map
      (fun selected => (sortRecs selected).take total)

/-- First `<a>` tag of an `<li>`: its `href` attribute (if any) and text. -/
structure Anchor where
  href : Option String
  text : String
deriving DecidableEq, Repr

/-- A scraped `<li>` element as seen by `fetch_day_sections`: its
whitespace-normalized text and its first anchor, if any. -/
structure LiItem where
  txt : String
  anchor : Option Anchor
deriving DecidableEq, Repr

/-- Whitespace class of the regex `\s` (ASCII part; the `li` text is
whitespace-normalized upstream, so only a plain blank actually occurs). -/
def isPySpace (c : Char) : Bool :=
  c = ' ' || c = '\t' || c = '\n' || c = '\r' || c = '\x0b' || c = '\x0c'

/-- `re.match(r"^(\d{1,4})\s*[–-]\s*(.*)$", txt)`, returning group 2.  The
digit run is matched greedily; backtracking to a shorter run can never
succeed (the following character would still be a digit), so the match
succeeds exactly when the maximal leading digit run has length 1..4 and is
followed, after optional whitespace, by a dash.  The input text carries no
newline (it is whitespace-normalized by the caller), so `(.*)$` is simply
the rest of the string. -/
def matchYearDash (cs : List Char) : Option (List Char) :=
  let ds := cs.takeWhile Char.isDigit
  if 1 ≤ ds.length ∧ ds.length ≤ 4 then
    match (cs.drop ds.length).dropWhile isPySpace with
    | c :: rest => if c = '–' ∨ c = '-' then some (rest.dropWhile isPySpace) else none
    | [] => none
  else none

/-- `desc.split(".")[0]`: the longest prefix before a literal dot. -/
def beforeDot (cs : List Char) : List Char :=
  cs.takeWhile (fun c => c ≠ '.')

/-- The per-`<li>` body of `fetch_day_sections` (lines 77-98): drop empty
text, drop observances/festivals, strip a leading `YYYY –` year, then pick
title and source from the first anchor (falling back to the page url and a
truncated description prefix). -/
def processLi (pageUrl : String) (li : LiItem) : Option RawRecord :=
  if li.txt = "" then none
  else if containsAny (lowerL li.txt) EXCLUDE_OBSERVANCES then none
  else
    let desc : String :=
      match matchYearDash li.txt.data with
      | some rest => ⟨rest⟩
      | none => li.txt
    let hrefTitle : String × String :=
      match li.anchor with
      | some a =>
        match a.href with
        | some h =>
          (if h.data.head? = some '/' then "https://en.wikipedia.org" ++ h else h, a.text)
        | none => (pageUrl, "")
      | none => (pageUrl, "")
    let title : String :=
      if hrefTitle.2 = "" then ⟨(beforeDot desc.data).take 120⟩ else hrefTitle.2
    some ⟨title, desc, hrefTitle.1⟩

/-- The records a day page contributes: every kept `<li>` in order. -/
def parseItems (pageUrl : String) (lis : List LiItem) : List RawRecord :=
  lis.filterMap (processLi pageUrl)

/-- An `<li>` whose text contains a configured exclude-term. -/
def isExcluded (li : LiItem) : Bool :=
  containsAny (lowerL li.txt) EXCLUDE_OBSERVANCES

/-- The dedup key of a raw record. -/
def rawKey (r : RawRecord) : String × String :=
  (r.title, r.desc)

/-- Boolean test for a fixed sort key (used to state sort stability). -/
def keyIs (k : Bool × ℚ) (r : Scored) : Bool :=
  decide (sortKey r = k)

instance : IsTotal Scored recGE :=
  ⟨by
    intro a b
    unfold recGE keyLE
    rcases Bool.eq_false_or_eq_true (sortKey b).1 with hb | hb <;>
      rcases Bool.eq_false_or_eq_true (sortKey a).1 with ha | ha
    · rcases le_total (sortKey b).2 (sortKey a).2 with h | h
      · exact Or.inl (Or.inr ⟨hb.trans ha.symm, h⟩)
      · exact Or.inr (Or.inr ⟨ha.trans hb.symm, h⟩)
    · exact Or.inr (Or.inl ⟨ha, hb⟩)
    · exact Or.inl (Or.inl ⟨hb, ha⟩)
    · rcases le_total (sortKey b).2 (sortKey a).2 with h | h
      · exact Or.inl (Or.inr ⟨hb.trans ha.symm, h⟩)
      · exact Or.inr (Or.inr ⟨ha.trans hb.symm, h⟩)⟩

instance : IsTrans Scored recGE :=
  ⟨by
    intro a b c hab hbc
    unfold recGE keyLE at *
    rcases hbc with ⟨hc, hb⟩ | ⟨he, hle⟩ <;> rcases hab with ⟨hb2, ha⟩ | ⟨he2, hle2⟩
    · exact absurd (hb2.symm.trans hb) (by simp)
    · exact Or.inl ⟨hc, he2.symm.trans hb⟩
    · exact Or.inl ⟨he.trans hb2, ha⟩
    · exact Or.inr ⟨he.trans he2, hle.trans hle2⟩⟩

/-! ### Concrete inputs used by witnesses and counterexamples -/

/-- Scenario input: three regional records (text lengths 8, 7, 6, hence
scores 50.04, 50.035, 50.03) and five global records (text lengths
8, 7, 6, 5, 4, hence scores 0.04, 0.035, 0.03, 0.025, 0.02). -/
def scenarioRaw : List RawRecord :=
  [⟨"india", "zz", "u"⟩, ⟨"india", "z", "u"⟩, ⟨"india", "", "u"⟩,
   ⟨"g1", "zzzzz", "u"⟩, ⟨"g2", "zzzz", "u"⟩, ⟨"g3", "zzz", "u"⟩,
   ⟨"g4", "zz", "u"⟩, ⟨"g5", "z", "u"⟩]

/-- Two equal-scored regional records followed by two global ones. -/
def tieRaw : List RawRecord :=
  [⟨"india", "a", "u"⟩, ⟨"india", "b", "u"⟩, ⟨"g", "1", "u"⟩, ⟨"g", "2", "u"⟩]

/-- Two equal-scored regional records. -/
def pairRaw : List RawRecord :=
  [⟨"india", "a", "u"⟩, ⟨"india", "b", "u"⟩]

/-- Three purely global records. -/
def globalRaw : List RawRecord :=
  [⟨"g1", "zzzzz", "u"⟩, ⟨"g2", "zzzz", "u"⟩, ⟨"g3", "zzz", "u"⟩]

/-- The scored forms of the concrete records above. -/
def sR1 : Scored := ⟨"india", "zz", "u", 1251/25, true⟩
def sR2 : Scored := ⟨"india", "z", "u", 10007/200, true⟩
def sR3 : Scored := ⟨"india", "", "u", 5003/100, true⟩
def sG1 : Scored := ⟨"g1", "zzzzz", "u", 1/25, false⟩
def sG2 : Scored := ⟨"g2", "zzzz", "u", 7/200, false⟩
def sG3 : Scored := ⟨"g3", "zzz", "u", 3/100, false⟩
def sG4 : Scored := ⟨"g4", "zz", "u", 1/40, false⟩
def sG5 : Scored := ⟨"g5", "z", "u", 1/50, false⟩
def sTA : Scored := ⟨"india", "a", "u", 10007/200, true⟩
def sTB : Scored := ⟨"india", "b", "u", 10007/200, true⟩
def sH1 : Scored := ⟨"g", "1", "u", 3/200, false⟩
def sH2 : Scored := ⟨"g", "2", "u", 3/200, false⟩

/-! ### Arithmetic helper lemmas -/

theorem pyInt_of_nonneg {q : ℚ} (h : 0 ≤ q) : pyInt q = ⌊q⌋ :=
  if_pos h

theorem pyInt_mono {q r : ℚ} (h : q ≤ r) : pyInt q ≤ pyInt r := by
  unfold pyInt
  split_ifs with h1 h2 h2
  · exact Int.floor_le_floor h
  · exact absurd (h1.trans h) h2
  · refine le_trans (Int.ceil_le.mpr ?_) (Int.floor_nonneg.mpr h2)
    exact_mod_cast le_of_not_le h1
  · exact Int.ceil_le_ceil h

theorem regionalTarget_nonneg (total : ℕ) {r : ℚ} (h : 0 ≤ r) :
    0 ≤ regionalTarget total r := by
  unfold regionalTarget
  rw [pyInt_of_nonneg (by positivity)]
  exact Int.floor_nonneg.mpr (by positivity)

theorem regionalTarget_mono (total : ℕ) {lo hi : ℚ} (h : lo ≤ hi) :
    regionalTarget total lo ≤ regionalTarget total hi :=
  pyInt_mono (mul_le_mul_of_nonneg_left h (by positivity))

theorem regionalTarget_le_total (total : ℕ) {r : ℚ} (h0 : 0 ≤ r) (h1 : r ≤ 1) :
    regionalTarget total r ≤ (total : ℤ) := by
  unfold regionalTarget
  rw [pyInt_of_nonneg (by positivity)]
  calc ⌊(total : ℚ) * r⌋ ≤ ⌊(total : ℚ)⌋ :=
        Int.floor_le_floor (mul_le_of_le_one_right (by positivity) h1)
    _ = (total : ℤ) := Int.floor_natCast total

/-! ### `pyTake` lemmas -/

theorem pyTake_eq_take (l : List α) (n : ℤ) : ∃ m, pyTake l n = l.take m := by
  unfold pyTake
  split_ifs
  · exact ⟨n.toNat, rfl⟩
  · exact ⟨l.length - n.natAbs, rfl⟩

theorem pyTake_sublist (l : List α) (n : ℤ) : List.Sublist (pyTake l n) l := by
  obtain ⟨m, hm⟩ := pyTake_eq_take l n
  rw [hm]
  exact List.take_sublist m l

theorem pyTake_nil (n : ℤ) : pyTake ([] : List α) n = [] := by
  obtain ⟨m, hm⟩ := pyTake_eq_take ([] : List α) n
  simp [hm]

theorem pyTake_of_nonneg {n : ℤ} (h : 0 ≤ n) (l : List α) : pyTake l n = l.take n.toNat :=
  if_pos h

theorem pyTake_all {n : ℤ} (l : List α) (h : 0 ≤ n) (hl : (l.length : ℤ) ≤ n) :
    pyTake l n = l := by
  rw [pyTake_of_nonneg h, List.take_of_length_le]
  omega

/-! ### Scoring and dedup lemmas -/

theorem toRaw_mkScored (r : RawRecord) : toRaw (mkScored r) = r :=
  rfl

theorem recKey_mkScored (r : RawRecord) : recKey (mkScored r) = rawKey r :=
  rfl

theorem mem_dedupScore {r : Scored} {raw : List RawRecord} :
    ∀ {seen}, r ∈ dedupScore seen raw → ∃ r0 ∈ raw, r = mkScored r0 := by
  induction raw with
  | nil => intro seen h; simp [dedupScore] at h
  | cons a rs ih =>
    intro seen h
    rw [dedupScore] at h
    split_ifs at h with hmem
    · obtain ⟨r0, hr0, he⟩ := ih h
      exact ⟨r0, List.mem_cons_of_mem _ hr0, he⟩
    · rcases List.mem_cons.mp h with he | h2
      · exact ⟨a, List.mem_cons_self _ _, he⟩
      · obtain ⟨r0, hr0, he⟩ := ih h2
        exact ⟨r0, List.mem_cons_of_mem _ hr0, he⟩

theorem dedupScore_keys {raw : List RawRecord} :
    ∀ {seen}, ((dedupScore seen raw).map recKey).Nodup ∧
      ∀ k ∈ (dedupScore seen raw).map recKey, k ∉ seen := by
  induction raw with
  | nil => intro seen; simp [dedupScore]
  | cons a rs ih =>
    intro seen
    rw [dedupScore]
    split_ifs with hmem
    · exact ⟨ih.1, fun k hk => ih.2 k hk⟩
    · constructor
      · refine List.nodup_cons.mpr ⟨fun hk => ?_, ih.1⟩
        exact (ih.2 _ hk) (List.mem_cons_self _ _)
      · intro k hk
        rcases List.mem_cons.mp hk with he | h2
        · rw [he]; exact hmem
        · exact fun hs => (ih.2 _ h2) (List.mem_cons_of_mem _ hs)

theorem dedupScore_sublist (raw : List RawRecord) :
    ∀ seen, List.Sublist (dedupScore seen raw) (raw.map mkScored) := by
  induction raw with
  | nil => intro seen; simp [dedupScore]
  | cons a rs ih =>
    intro seen
    rw [dedupScore, List.map_cons]
    split_ifs
    · exact (ih _).trans (List.sublist_cons_self _ _)
    · exact List.Sublist.cons₂ _ (ih _)

theorem dedupScore_eq_map {raw : List RawRecord} :
    ∀ {seen}, (raw.map rawKey).Nodup → (∀ k ∈ raw.map rawKey, k ∉ seen) →
      dedupScore seen raw = raw.map mkScored := by
  induction raw with
  | nil => intro seen _ _; rfl
  | cons a rs ih =>
    intro seen hnd hks
    have hka : (a.title, a.desc) = rawKey a := rfl
    rw [List.map_cons, List.nodup_cons] at hnd
    rw [dedupScore, if_neg (hka ▸ hks (rawKey a) (by simp)), List.map_cons]
    congr 1
    refine ih hnd.2 ?_
    intro k hk hs
    rcases List.mem_cons.mp hs with he | hs2
    · exact hnd.1 (show (a.title, a.desc) ∈ rs.map rawKey from he ▸ hk)
    · exact hks k (List.mem_cons_of_mem _ hk) hs2

/-! ### Sort lemmas -/

theorem sortRecs_perm (l : List Scored) : List.Perm (sortRecs l) l :=
  List.perm_insertionSort recGE l

theorem sortRecs_sorted (l : List Scored) : (sortRecs l).Sorted recGE :=
  List.sorted_insertionSort recGE l

theorem sortRecs_of_sorted {l : List Scored} (h : l.Sorted recGE) : sortRecs l = l :=
  h.insertionSort_eq

theorem recGE_of_keyIs {k : Bool × ℚ} {a b : Scored} (ha : keyIs k a = true)
    (hb : keyIs k b = true) : recGE a b := by
  have ha' : sortKey a = k := of_decide_eq_true ha
  have hb' : sortKey b = k := of_decide_eq_true hb
  exact Or.inr ⟨by rw [ha', hb'], by rw [ha', hb']⟩

theorem sortRecs_filter_key (l : List Scored) (k : Bool × ℚ) :
    (sortRecs l).filter (keyIs k) = l.filter (keyIs k) := by
  have hpw : (l.filter (keyIs k)).Pairwise recGE :=
    List.pairwise_of_forall_mem_list fun a ha b hb =>
      recGE_of_keyIs (List.of_mem_filter ha) (List.of_mem_filter hb)
  have hsub : List.Sublist (l.filter (keyIs k)) (sortRecs l) :=
    List.sublist_insertionSort hpw (List.filter_sublist l)
  have hself : (l.filter (keyIs k)).filter (keyIs k) = l.filter (keyIs k) :=
    List.filter_eq_self.mpr fun a ha => List.of_mem_filter ha
  have hsub2 : List.Sublist (l.filter (keyIs k)) ((sortRecs l).filter (keyIs k)) := by
    have h2 := hsub.filter (keyIs k)
    rwa [hself] at h2
  have hlen : ((sortRecs l).filter (keyIs k)).length = (l.filter (keyIs k)).length :=
    ((sortRecs_perm l).filter (keyIs k)).length_eq
  exact (hsub2.eq_of_length hlen.symm).symm

theorem sorted_filter_partition {l : List Scored} (h : l.Sorted recGE) :
    l.filter (fun r => r.is_india) ++ l.filter (fun r => !r.is_india) = l := by
  induction l with
  | nil => rfl
  | cons a t ih =>
    rw [List.sorted_cons] at h
    obtain ⟨hall, ht⟩ := h
    rcases Bool.eq_false_or_eq_true a.is_india with ha | ha
    · rw [List.filter_cons_of_pos (by simp [ha]), List.filter_cons_of_neg (by simp [ha]),
        List.cons_append, ih ht]
    · have hglob : ∀ b ∈ t, b.is_india = false := by
        intro b hb
        have hab := hall b hb
        unfold recGE keyLE at hab
        rcases hab with ⟨_, h2⟩ | ⟨h1, _⟩
        · exact absurd h2 (by simp [sortKey, ha])
        · simpa [sortKey, ha] using h1
      rw [List.filter_cons_of_neg (by simp [ha]), List.filter_cons_of_pos (by simp [ha]),
        List.filter_eq_nil_iff.mpr (by intro b hb; simp [hglob b hb]),
        List.filter_eq_self.mpr (by intro b hb; simp [hglob b hb]), List.nil_append]

/-! ### Repair loop lemmas -/

theorem repairLoop_length (india : List Scored) :
    ∀ (fuel : ℕ) (selected : List Scored) (src : ℕ) (replace : ℤ),
      (repairLoop india selected src replace fuel).length = selected.length := by
  intro fuel
  induction fuel with
  | zero => intro selected src replace; rfl
  | succ n ih =>
    intro selected src replace
    rw [repairLoop]
    split_ifs with hc
    · split
      · rfl
      · split_ifs with hr
        · exact ih ..
        · rw [ih]; exact List.length_set ..
    · rfl

theorem mem_repairLoop (india : List Scored) :
    ∀ (fuel : ℕ) (selected : List Scored) (src : ℕ) (replace : ℤ) {x : Scored},
      x ∈ repairLoop india selected src replace fuel → x ∈ selected ∨ x ∈ india := by
  intro fuel
  induction fuel with
  | zero => intro selected src replace x h; exact Or.inl h
  | succ n ih =>
    intro selected src replace x h
    rw [repairLoop] at h
    split_ifs at h with hc
    · split at h
      · exact Or.inl h
      · split_ifs at h with hr
        · exact ih _ _ _ h
        · rcases ih _ _ _ h with hin | hin
          · rcases List.mem_or_eq_of_mem_set hin with h2 | h2
            · exact Or.inl h2
            · subst h2
              right
              rw [List.getD_eq_getElem?_getD, List.getElem?_eq_getElem hc.2]
              exact List.getElem_mem _
          · exact Or.inr hin
    · exact Or.inl h

theorem repairLoop?_eq (india : List Scored) :
    ∀ (fuel : ℕ) (selected : List Scored) (src : ℕ) (replace : ℤ),
      fuel ≤ selected.length →
      repairLoop? india selected src replace fuel =
        some (repairLoop india selected src replace fuel) := by
  intro fuel
  induction fuel with
  | zero => intro selected src replace _; rfl
  | succ n ih =>
    intro selected src replace hle
    have hn : n < selected.length := Nat.lt_of_lt_of_le (Nat.lt_succ_self n) hle
    rw [repairLoop, repairLoop?, List.getElem?_eq_getElem hn]
    split_ifs with hc
    · rw [List.getElem?_eq_getElem hc.2]
      dsimp only
      split_ifs with hr
      · exact ih _ _ _ (Nat.le_of_lt hn)
      · rw [List.getD_eq_getElem?_getD, List.getElem?_eq_getElem hc.2, Option.getD_some]
        exact ih _ _ _ (by rw [List.length_set]; exact Nat.le_of_lt hn)
    · rfl

theorem repairLoop_keys_nodup (india : List Scored)
    (hind : (india.map recKey).Nodup) :
    ∀ (fuel : ℕ) (selected : List Scored) (src : ℕ) (replace : ℤ),
      (selected.map recKey).Nodup →
      (∀ j, src ≤ j → ∀ x, india[j]? = some x → recKey x ∉ selected.map recKey) →
      ((repairLoop india selected src replace fuel).map recKey).Nodup := by
  intro fuel
  induction fuel with
  | zero => intro selected src replace hs _; exact hs
  | succ n ih =>
    intro selected src replace hs hinv
    rw [repairLoop]
    split_ifs with hc
    · split
      · exact hs
      · split_ifs with hr
        · exact ih _ _ _ hs hinv
        · have hxval : india.getD src (by assumption) = india[src] := by
            rw [List.getD_eq_getElem?_getD, List.getElem?_eq_getElem hc.2, Option.getD_some]
          refine ih _ _ _ ?_ ?_
          · rw [List.map_set]
            refine List.Nodup.set hs ?_
            rw [hxval]
            exact hinv src (Nat.le_refl _) _ (List.getElem?_eq_getElem hc.2)
          · intro j hj y hy hmem
            rw [List.map_set] at hmem
            rcases List.mem_or_eq_of_mem_set hmem with h2 | h2
            · exact hinv j (Nat.le_of_succ_le hj) y hy h2
            · rw [hxval] at h2
              have hjlen : j < india.length := by
                rcases List.getElem?_eq_some_iff.mp hy with ⟨h, _⟩
                exact h
              have hyj : india[j] = y := by
                rcases List.getElem?_eq_some_iff.mp hy with ⟨_, h⟩
                exact h
              have hkeq : recKey india[j] = recKey india[src] := by
                rw [hyj]
                exact h2
              have helem : india[j] = india[src] :=
                List.inj_on_of_nodup_map hind (List.getElem_mem hjlen)
                  (List.getElem_mem hc.2) hkeq
              have hjs : j = src :=
                (List.Nodup.getElem_inj_iff (List.Nodup.of_map recKey hind)).mp helem
              omega
    · exact hs

/-! ### Greedy fill and repair-skip lemmas -/

theorem greedyFill_cases (india global : List Scored) (total : ℕ) (th : ℤ) :
    greedyFill india global total th = pyTake india th ∨
      ∃ n : ℤ, greedyFill india global total th = pyTake india th ++ pyTake global n := by
  unfold greedyFill
  dsimp only
  split_ifs
  · exact Or.inr ⟨_, rfl⟩
  · exact Or.inl rfl

theorem greedyFill_filter_india {india global : List Scored}
    (hi : ∀ r ∈ india, r.is_india = true) (hg : ∀ r ∈ global, r.is_india = false)
    (total : ℕ) (th : ℤ) :
    (greedyFill india global total th).filter (fun r => r.is_india) = pyTake india th := by
  have h1 : (pyTake india th).filter (fun r => r.is_india) = pyTake india th :=
    List.filter_eq_self.mpr fun a ha => by
      simp [hi a ((pyTake_sublist india th).subset ha)]
  have h2 : ∀ n, (pyTake global n).filter (fun r => r.is_india) = [] := fun n =>
    List.filter_eq_nil_iff.mpr fun a ha => by
      simp [hg a ((pyTake_sublist global n).subset ha)]
  rcases greedyFill_cases india global total th with hc | ⟨n, hc⟩ <;> rw [hc]
  · exact h1
  · rw [List.filter_append, h1, h2, List.append_nil]

theorem regionalCount_greedyFill {india global : List Scored}
    (hi : ∀ r ∈ india, r.is_india = true) (hg : ∀ r ∈ global, r.is_india = false)
    (total : ℕ) (th : ℤ) :
    regionalCount (greedyFill india global total th) = (pyTake india th).length := by
  unfold regionalCount
  rw [greedyFill_filter_india hi hg]

theorem applyRepair_skip {india global : List Scored} {tl th : ℤ} {total : ℕ}
    (hi : ∀ r ∈ india, r.is_india = true) (hg : ∀ r ∈ global, r.is_india = false)
    (hta : tl ≤ th) :
    applyRepair india tl (greedyFill india global total th) =
      greedyFill india global total th := by
  unfold applyRepair
  dsimp only
  rw [if_neg]
  rintro ⟨h1, h2⟩
  rw [regionalCount_greedyFill hi hg] at h1 h2
  rcases le_or_lt 0 th with h0 | h0
  · rw [pyTake_of_nonneg h0, List.length_take] at h1 h2
    have hth := Int.toNat_of_nonneg h0
    omega
  · omega

/-! ### Pipeline shape of `select_for_day` -/

theorem select_pipeline (raw : List RawRecord) (mn mx : ℕ) (lo hi : ℚ)
    (hraw : raw ≠ []) :
    select_for_day raw mn mx lo hi =
      (sortRecs (applyRepair
          ((sortRecs (dedupScore [] raw)).filter (fun i => i.is_india))
          (regionalTarget (max mn (min mx (sortRecs (dedupScore [] raw)).length)) lo)
          (greedyFill ((sortRecs (dedupScore [] raw)).filter (fun i => i.is_india))
            ((sortRecs (dedupScore [] raw)).filter (fun i => !i.is_india))
            (max mn (min mx (sortRecs (dedupScore [] raw)).length))
            (regionalTarget (max mn (min mx (sortRecs (dedupScore [] raw)).length)) hi)))).take
        (max mn (min mx (sortRecs (dedupScore [] raw)).length)) := by
  rw [select_for_day, if_neg hraw]

theorem select?_pipeline (raw : List RawRecord) (mn mx : ℕ) (lo hi : ℚ)
    (hraw : raw ≠ []) :
    select_for_day? raw mn mx lo hi =
      (applyRepair?
          ((sortRecs (dedupScore [] raw)).filter (fun i => i.is_india))
          (regionalTarget (max mn (min mx (sortRecs (dedupScore [] raw)).length)) lo)
          (greedyFill ((sortRecs (dedupScore [] raw)).filter (fun i => i.is_india))
            ((sortRecs (dedupScore [] raw)).filter (fun i => !i.is_india))
            (max mn (min mx (sortRecs (dedupScore [] raw)).length))
            (regionalTarget (max mn (min mx (sortRecs (dedupScore [] raw)).length)) hi))).map
        (fun selected =>
          (sortRecs selected).take (max mn (min mx (sortRecs (dedupScore [] raw)).length))) := by
  rw [select_for_day?, if_neg hraw]

theorem applyRepair?_eq (india : List Scored) (tl : ℤ) (selected : List Scored) :
    applyRepair? india tl selected = some (applyRepair india tl selected) := by
  unfold applyRepair applyRepair?
  dsimp only
  split_ifs
  · exact repairLoop?_eq india selected.length selected _ _ (Nat.le_refl _)
  · rfl

/-! ### Key-distinctness through the pipeline -/

theorem take_eq_take_length (l : List α) (s : ℕ) : l.take s = l.take (l.take s).length := by
  rw [List.length_take]
  rcases Nat.le_total s l.length with h | h
  · rw [Nat.min_eq_left h]
  · rw [Nat.min_eq_right h, List.take_length, List.take_of_length_le h]

theorem items_keys_nodup (raw : List RawRecord) :
    ((sortRecs (dedupScore [] raw)).map recKey).Nodup :=
  (((sortRecs_perm (dedupScore [] raw)).map recKey).nodup_iff).mpr dedupScore_keys.1

theorem applyRepair_greedy_keys_nodup {items : List Scored}
    (hnd : (items.map recKey).Nodup) (total : ℕ) (tl th : ℤ) :
    ((applyRepair (items.filter (fun i => i.is_india)) tl
        (greedyFill (items.filter (fun i => i.is_india))
          (items.filter (fun i => !i.is_india)) total th)).map recKey).Nodup := by
  have hi : ∀ r ∈ items.filter (fun i => i.is_india), r.is_india = true := by
    intro r hr; simpa using List.of_mem_filter hr
  have hg : ∀ r ∈ items.filter (fun i => !i.is_india), r.is_india = false := by
    intro r hr; simpa using List.of_mem_filter hr
  have hIk : ((items.filter (fun i => i.is_india)).map recKey).Nodup :=
    List.Nodup.sublist ((List.filter_sublist items).map recKey) hnd
  have hGk : ((items.filter (fun i => !i.is_india)).map recKey).Nodup :=
    List.Nodup.sublist ((List.filter_sublist items).map recKey) hnd
  have hgk : ((greedyFill (items.filter (fun i => i.is_india))
      (items.filter (fun i => !i.is_india)) total th).map recKey).Nodup := by
    rcases greedyFill_cases (items.filter (fun i => i.is_india))
        (items.filter (fun i => !i.is_india)) total th with hc | ⟨n, hc⟩ <;> rw [hc]
    · exact List.Nodup.sublist ((pyTake_sublist _ _).map recKey) hIk
    · rw [List.map_append]
      refine List.Nodup.append
        (List.Nodup.sublist ((pyTake_sublist _ _).map recKey) hIk)
        (List.Nodup.sublist ((pyTake_sublist _ _).map recKey) hGk) ?_
      intro k hkA hkB
      obtain ⟨a, ha, hka⟩ := List.mem_map.mp hkA
      obtain ⟨b, hb, hkb⟩ := List.mem_map.mp hkB
      have hab : a = b :=
        List.inj_on_of_nodup_map hnd
          ((List.filter_sublist items).subset ((pyTake_sublist _ _).subset ha))
          ((List.filter_sublist items).subset ((pyTake_sublist _ _).subset hb))
          (hka.trans hkb.symm)
      have h1 := hi a ((pyTake_sublist _ _).subset ha)
      have h2 := hg b ((pyTake_sublist _ _).subset hb)
      rw [hab, h2] at h1
      exact absurd h1 (by simp)
  unfold applyRepair
  dsimp only
  split_ifs with hcond
  · refine repairLoop_keys_nodup _ hIk _ _ _ _ hgk ?_
    intro j hj x hx hmem
    rw [regionalCount_greedyFill hi hg] at hj
    obtain ⟨hjlen, hxval⟩ := List.getElem?_eq_some_iff.mp hx
    have hxI : x ∈ items.filter (fun i => i.is_india) := hxval ▸ List.getElem_mem hjlen
    obtain ⟨y, hy, hky⟩ := List.mem_map.mp hmem
    have hInodup : (items.filter (fun i => i.is_india)).Nodup := List.Nodup.of_map _ hIk
    have hxdrop : x ∈ (items.filter (fun i => i.is_india)).drop
        ((pyTake (items.filter (fun i => i.is_india)) th).length) := by
      have h1 : x ∈ (items.filter (fun i => i.is_india)).drop j := by
        rw [List.drop_eq_getElem_cons hjlen, ← hxval]
        exact List.mem_cons_self _ _
      have h2 : (items.filter (fun i => i.is_india)).drop j =
          ((items.filter (fun i => i.is_india)).drop
            ((pyTake (items.filter (fun i => i.is_india)) th).length)).drop
              (j - (pyTake (items.filter (fun i => i.is_india)) th).length) := by
        rw [List.drop_drop]
        congr 1
        omega
      rw [h2] at h1
      exact (List.drop_sublist _ _).subset h1
    have hA_case : y ∈ pyTake (items.filter (fun i => i.is_india)) th → False := by
      intro hyA
      have hyI : y ∈ items.filter (fun i => i.is_india) := (pyTake_sublist _ _).subset hyA
      have hxy : y = x :=
        List.inj_on_of_nodup_map hnd ((List.filter_sublist items).subset hyI)
          ((List.filter_sublist items).subset hxI) hky
      have hxA : x ∈ (items.filter (fun i => i.is_india)).take
          ((pyTake (items.filter (fun i => i.is_india)) th).length) := by
        obtain ⟨s, hs⟩ := pyTake_eq_take (items.filter (fun i => i.is_india)) th
        have := take_eq_take_length (items.filter (fun i => i.is_india)) s
        rw [hs] at hyA ⊢
        rw [← this]
        exact hxy ▸ hyA
      have hnodup2 : ((items.filter (fun i => i.is_india)).take
            ((pyTake (items.filter (fun i => i.is_india)) th).length) ++
          (items.filter (fun i => i.is_india)).drop
            ((pyTake (items.filter (fun i => i.is_india)) th).length)).Nodup := by
        rw [List.take_append_drop]
        exact hInodup
      exact List.disjoint_of_nodup_append hnodup2 hxA hxdrop
    have hB_case : ∀ n, y ∈ pyTake (items.filter (fun i => !i.is_india)) n → False := by
      intro n hyB
      have hyG : y ∈ items.filter (fun i => !i.is_india) := (pyTake_sublist _ _).subset hyB
      have hxy : y = x :=
        List.inj_on_of_nodup_map hnd ((List.filter_sublist items).subset hyG)
          ((List.filter_sublist items).subset hxI) hky
      have h1 := hi x hxI
      have h2 := hg y hyG
      rw [hxy, h1] at h2
      exact absurd h2 (by simp)
    rcases greedyFill_cases (items.filter (fun i => i.is_india))
        (items.filter (fun i => !i.is_india)) total th with hcg | ⟨n, hcg⟩
    · rw [hcg] at hy
      exact hA_case hy
    · rw [hcg] at hy
      rcases List.mem_append.mp hy with h | h
      · exact hA_case h
      · exact hB_case n h
  · exact hgk

/-! ### Select-level invariants -/

theorem mem_applyRepair {india selected : List Scored} {tl : ℤ} {x : Scored}
    (h : x ∈ applyRepair india tl selected) : x ∈ selected ∨ x ∈ india := by
  unfold applyRepair at h
  dsimp only at h
  split_ifs at h with hc
  · exact mem_repairLoop _ _ _ _ _ h
  · exact Or.inl h

theorem mem_greedyFill {india global : List Scored} {total : ℕ} {th : ℤ} {x : Scored}
    (h : x ∈ greedyFill india global total th) : x ∈ india ∨ x ∈ global := by
  rcases greedyFill_cases india global total th with hc | ⟨n, hc⟩ <;> rw [hc] at h
  · exact Or.inl ((pyTake_sublist _ _).subset h)
  · rcases List.mem_append.mp h with h | h
    · exact Or.inl ((pyTake_sublist _ _).subset h)
    · exact Or.inr ((pyTake_sublist _ _).subset h)

theorem select_sorted (raw : List RawRecord) (mn mx : ℕ) (lo hi : ℚ) :
    (select_for_day raw mn mx lo hi).Sorted recGE := by
  by_cases hraw : raw = []
  · subst hraw; rw [select_for_day]; simp
  · rw [select_pipeline raw mn mx lo hi hraw]
    exact List.Pairwise.sublist (List.take_sublist _ _) (sortRecs_sorted _)

theorem select_length_le (raw : List RawRecord) (mn mx : ℕ) (lo hi : ℚ) :
    (select_for_day raw mn mx lo hi).length ≤ max mn (min mx (dedupScore [] raw).length) := by
  by_cases hraw : raw = []
  · subst hraw; rw [select_for_day]; simp
  · rw [select_pipeline raw mn mx lo hi hraw]
    calc ((sortRecs (applyRepair _ _ _)).take
        (max mn (min mx (sortRecs (dedupScore [] raw)).length))).length ≤
          max mn (min mx (sortRecs (dedupScore [] raw)).length) := by
          rw [List.length_take]; exact Nat.min_le_left _ _
      _ = max mn (min mx (dedupScore [] raw).length) := by
          rw [(sortRecs_perm _).length_eq]

theorem mem_select {raw : List RawRecord} {mn mx : ℕ} {lo hi : ℚ} {r : Scored}
    (h : r ∈ select_for_day raw mn mx lo hi) : ∃ r0 ∈ raw, r = mkScored r0 := by
  by_cases hraw : raw = []
  · subst hraw; rw [select_for_day] at h; simp at h
  · rw [select_pipeline raw mn mx lo hi hraw] at h
    have h1 := (sortRecs_perm _).mem_iff.mp (List.mem_of_mem_take h)
    have h3 : r ∈ sortRecs (dedupScore [] raw) := by
      rcases mem_applyRepair h1 with h2 | h2
      · rcases mem_greedyFill h2 with h4 | h4
        · exact (List.filter_sublist _).subset h4
        · exact (List.filter_sublist _).subset h4
      · exact (List.filter_sublist _).subset h2
    exact mem_dedupScore ((sortRecs_perm _).mem_iff.mp h3)

theorem select_keys_nodup (raw : List RawRecord) (mn mx : ℕ) (lo hi : ℚ) :
    ((select_for_day raw mn mx lo hi).map recKey).Nodup := by
  by_cases hraw : raw = []
  · subst hraw; rw [select_for_day]; simp
  · rw [select_pipeline raw mn mx lo hi hraw]
    refine List.Nodup.sublist ((List.take_sublist _ _).map recKey)
      (((sortRecs_perm _).map recKey).nodup_iff.mpr ?_)
    exact applyRepair_greedy_keys_nodup (items_keys_nodup raw) _ _ _

theorem select?_eq_some (raw : List RawRecord) (mn mx : ℕ) (lo hi : ℚ) :
    select_for_day? raw mn mx lo hi = some (select_for_day raw mn mx lo hi) := by
  by_cases hraw : raw = []
  · subst hraw; rw [select_for_day?, select_for_day]; simp
  · rw [select?_pipeline raw mn mx lo hi hraw, select_pipeline raw mn mx lo hi hraw,
      applyRepair?_eq, Option.map_some']

theorem select_pipeline_noRepair (raw : List RawRecord) (mn mx : ℕ) {lo hi : ℚ}
    (hlh : lo ≤ hi) (hraw : raw ≠ []) :
    select_for_day raw mn mx lo hi =
      (sortRecs (greedyFill
          ((sortRecs (dedupScore [] raw)).filter (fun i => i.is_india))
          ((sortRecs (dedupScore [] raw)).filter (fun i => !i.is_india))
          (max mn (min mx (sortRecs (dedupScore [] raw)).length))
          (regionalTarget (max mn (min mx (sortRecs (dedupScore [] raw)).length)) hi))).take
        (max mn (min mx (sortRecs (dedupScore [] raw)).length)) := by
  rw [select_pipeline raw mn mx lo hi hraw, applyRepair_skip]
  · intro r hr; simpa using List.of_mem_filter hr
  · intro r hr; simpa using List.of_mem_filter hr
  · exact regionalTarget_mono _ hlh

theorem greedyFill_eq (india global : List Scored) (total : ℕ) (th : ℤ) :
    greedyFill india global total th =
      if 0 < (total : ℤ) - (pyTake india th).length then
        pyTake india th ++ pyTake global ((total : ℤ) - (pyTake india th).length)
      else pyTake india th :=
  rfl

theorem greedyFill_length_le {india global : List Scored} {total : ℕ} {th : ℤ}
    (hth : 0 ≤ th) (htot : th ≤ (total : ℤ)) :
    (greedyFill india global total th).length ≤ total := by
  have h1 : (pyTake india th).length ≤ th.toNat := by
    rw [pyTake_of_nonneg hth, List.length_take]
    exact Nat.min_le_left _ _
  rw [greedyFill_eq]
  split_ifs with hneed
  · rw [List.length_append]
    have h2 : (pyTake global ((total : ℤ) - (pyTake india th).length)).length ≤
        ((total : ℤ) - (pyTake india th).length).toNat := by
      rw [pyTake_of_nonneg (by omega), List.length_take]
      exact Nat.min_le_left _ _
    omega
  · omega

theorem regionalCount_select (raw : List RawRecord) (mn mx : ℕ) {lo hi : ℚ}
    (h0 : 0 ≤ hi) (hhi : hi ≤ 1) (hlh : lo ≤ hi) (hraw : raw ≠ []) :
    regionalCount (select_for_day raw mn mx lo hi) =
      (pyTake ((sortRecs (dedupScore [] raw)).filter (fun i => i.is_india))
        (regionalTarget (max mn (min mx (sortRecs (dedupScore [] raw)).length)) hi)).length := by
  rw [select_pipeline_noRepair raw mn mx hlh hraw]
  have hth : 0 ≤ regionalTarget (max mn (min mx (sortRecs (dedupScore [] raw)).length)) hi :=
    regionalTarget_nonneg _ h0
  have htot := regionalTarget_le_total
    (max mn (min mx (sortRecs (dedupScore [] raw)).length)) h0 hhi
  have hlen : (greedyFill ((sortRecs (dedupScore [] raw)).filter (fun i => i.is_india))
      ((sortRecs (dedupScore [] raw)).filter (fun i => !i.is_india))
      (max mn (min mx (sortRecs (dedupScore [] raw)).length))
      (regionalTarget (max mn (min mx (sortRecs (dedupScore [] raw)).length)) hi)).length ≤
      max mn (min mx (sortRecs (dedupScore [] raw)).length) :=
    greedyFill_length_le hth htot
  rw [List.take_of_length_le (by rw [(sortRecs_perm _).length_eq]; exact hlen)]
  unfold regionalCount
  calc (List.filter (fun r => r.is_india) (sortRecs (greedyFill _ _ _ _))).length =
        (List.filter (fun r => r.is_india) (greedyFill _ _ _ _)).length :=
        ((sortRecs_perm _).filter _).length_eq
    _ = _ := by
        rw [greedyFill_filter_india]
        · intro r hr; simpa using List.of_mem_filter hr
        · intro r hr; simpa using List.of_mem_filter hr

/-! ### Parser exclusion lemmas -/

theorem processLi_excluded (url : String) (li : LiItem) (h : isExcluded li = true) :
    processLi url li = none := by
  unfold processLi
  split_ifs with h1 h2
  · rfl
  · rfl
  · unfold isExcluded at h
    exact absurd h h2

theorem parseItems_excluded (url : String) (lis : List LiItem) :
    parseItems url (lis.filter (fun li => isExcluded li)) = [] := by
  unfold parseItems
  rw [List.filterMap_eq_nil]
  intro li hli
  exact processLi_excluded url li (List.of_mem_filter hli)

theorem parseItems_drop_excluded (url : String) (lis : List LiItem) :
    parseItems url (lis.filter (fun li => !isExcluded li)) = parseItems url lis := by
  unfold parseItems
  induction lis with
  | nil => rfl
  | cons a t ih =>
    rcases Bool.eq_false_or_eq_true (isExcluded a) with ha | ha
    · rw [List.filter_cons_of_neg (by simp [ha]), List.filterMap_cons,
        processLi_excluded url a ha, ih]
    · rw [List.filter_cons_of_pos (by simp [ha]), List.filterMap_cons, List.filterMap_cons, ih]

/-! ### Claim theorems -/

/-- C3: the quota targets `int(total * ratio)` equal the mathematical floor
`⌊total * ratio⌋` of the exact rational product whenever the ratio is
non-negative (`int()` truncates towards zero, which is the floor for a
non-negative product; e.g. `total = 10`, `ratio = 7/10` gives `7`). -/
theorem claim3_targets_floor (total : ℕ) {ratio : ℚ} (h0 : 0 ≤ ratio) :
    regionalTarget total ratio = ⌊(total : ℚ) * ratio⌋ := by
  unfold regionalTarget
  exact pyInt_of_nonneg (by positivity)

theorem claim3_targets_floor_witness :
    (0 ≤ (7 : ℚ) / 10) ∧ regionalTarget 10 ((7 : ℚ) / 10) = ⌊(10 : ℚ) * ((7 : ℚ) / 10)⌋ ∧
      regionalTarget 10 ((7 : ℚ) / 10) = 7 :=
  ⟨by norm_num, claim3_targets_floor 10 (by norm_num), by norm_num [regionalTarget, pyInt]⟩

/-- C9: for every record, the score is `50·[keyword hit] + min(len/200, 10)`,
`is_india` is exactly `score ≥ 50`, and consequently `is_india` holds if and
only if the concatenated title+description text contains a regional keyword
(the length bonus alone caps at 10 and can never reach the 50 threshold). -/
theorem claim9_classification (r : RawRecord) :
    (mkScored r).score =
      (if containsAny (lowerL (r.title ++ " " ++ r.desc)) INDIA_KEYWORDS then (50 : ℚ) else 0)
        + min (((r.title ++ " " ++ r.desc).length : ℚ) / 200) 10 ∧
    (mkScored r).is_india =
      decide ((50 : ℚ) ≤ (mkScored r).score) ∧
    ((mkScored r).is_india = true ↔
      containsAny (lowerL (r.title ++ " " ++ r.desc)) INDIA_KEYWORDS = true) := by
  refine ⟨rfl, rfl, ?_⟩
  show decide ((50 : ℚ) ≤ india_score (r.title ++ " " ++ r.desc)) = true ↔ _
  rw [decide_eq_true_eq]
  unfold india_score
  have hlen : (0 : ℚ) ≤ min (((r.title ++ " " ++ r.desc).length : ℚ) / 200) 10 :=
    le_min (by positivity) (by norm_num)
  have hlt : min (((r.title ++ " " ++ r.desc).length : ℚ) / 200) 10 ≤ 10 := min_le_right _ _
  constructor
  · intro h
    by_contra hkw
    rw [if_neg hkw] at h
    linarith
  · intro hkw
    rw [if_pos hkw]
    linarith

/-- C5: the (error-monadic mirror of the) engine never fails: on every input
and every query it returns `some` Selection, and on the empty input it
returns the empty Selection for every query, including degenerate ratios. -/
theorem claim5_never_fails (raw : List RawRecord) (mn mx : ℕ) (lo hi : ℚ) :
    select_for_day? raw mn mx lo hi = some (select_for_day raw mn mx lo hi) ∧
      select_for_day ([] : List RawRecord) mn mx lo hi = [] :=
  ⟨select?_eq_some raw mn mx lo hi, by rw [select_for_day]; simp⟩

/-- C2: an `<li>` whose text contains an exclude-term produces no record at
all (it is dropped before scoring, so it never becomes a ScoredRecord), and
consequently dropping all excluded items leaves every day Selection
unchanged — an excluded record never appears in any Selection. -/
theorem claim2_exclusion (url : String) (lis : List LiItem) (mn mx : ℕ) (lo hi : ℚ) :
    parseItems url (lis.filter (fun li => isExcluded li)) = [] ∧
      select_for_day (parseItems url lis) mn mx lo hi =
        select_for_day (parseItems url (lis.filter (fun li => !isExcluded li))) mn mx lo hi :=
  ⟨parseItems_excluded url lis, by rw [parseItems_drop_excluded]⟩

/-- C10 (implicit): every selected record is one of the input records with
title, description and source unchanged; no `(title, desc)` pair occurs
twice in a Selection; and a Selection holds at most `maxCount` records. -/
theorem claim10_no_fabrication (raw : List RawRecord) (mn mx : ℕ) (lo hi : ℚ)
    (hmn : mn ≤ mx) :
    (∀ r ∈ select_for_day raw mn mx lo hi,
        ∃ r0 ∈ raw, r.title = r0.title ∧ r.desc = r0.desc ∧ r.src = r0.src) ∧
      ((select_for_day raw mn mx lo hi).map (fun r => (r.title, r.desc))).Nodup ∧
      (select_for_day raw mn mx lo hi).length ≤ mx := by
  refine ⟨?_, ?_, ?_⟩
  · intro r hr
    obtain ⟨r0, hr0, he⟩ := mem_select hr
    exact ⟨r0, hr0, by rw [he]; exact ⟨rfl, rfl, rfl⟩⟩
  · simpa [recKey] using select_keys_nodup raw mn mx lo hi
  · have h := select_length_le raw mn mx lo hi
    have h2 : max mn (min mx (dedupScore [] raw).length) ≤ mx := by omega
    omega

theorem filter_india_sort_len (raw : List RawRecord) :
    ((sortRecs (dedupScore [] raw)).filter (fun i => i.is_india)).length =
      regionalCount (dedupScore [] raw) :=
  ((sortRecs_perm _).filter _).length_eq

theorem greedyFill_sublist {items : List Scored} (hs : items.Sorted recGE)
    (total : ℕ) (th : ℤ) :
    List.Sublist (greedyFill (items.filter (fun i => i.is_india))
      (items.filter (fun i => !i.is_india)) total th) items := by
  rcases greedyFill_cases (items.filter (fun i => i.is_india))
      (items.filter (fun i => !i.is_india)) total th with hc | ⟨n, hc⟩ <;> rw [hc]
  · exact (pyTake_sublist _ _).trans (List.filter_sublist _)
  · have h2 := List.Sublist.append
      (pyTake_sublist (items.filter (fun i => i.is_india)) th)
      (pyTake_sublist (items.filter (fun i => !i.is_india)) n)
    rw [sorted_filter_partition hs] at h2
    exact h2

/-- C1: whenever the ratios are ordered and within `[0, 1]` and there are at
least `regionalTargetLow` regional candidates after dedup, the number of
regional records in the returned Selection lies between the low and high
regional targets. -/
theorem claim1_ratio_bound (raw : List RawRecord) (mn mx : ℕ) (lo hi : ℚ)
    (hmn : mn ≤ mx) (h0 : 0 ≤ lo) (hlh : lo ≤ hi) (hhi : hi ≤ 1)
    (hcand : regionalTarget (max mn (min mx (dedupScore [] raw).length)) lo ≤
      (regionalCount (dedupScore [] raw) : ℤ)) :
    regionalTarget (max mn (min mx (dedupScore [] raw).length)) lo ≤
        (regionalCount (select_for_day raw mn mx lo hi) : ℤ) ∧
      (regionalCount (select_for_day raw mn mx lo hi) : ℤ) ≤
        regionalTarget (max mn (min mx (dedupScore [] raw).length)) hi := by
  have h0hi : (0 : ℚ) ≤ hi := h0.trans hlh
  by_cases hraw : raw = []
  · subst hraw
    have hsel : select_for_day [] mn mx lo hi = [] := by rw [select_for_day]; simp
    rw [hsel]
    have hc0 : regionalCount ([] : List Scored) = 0 := rfl
    have hd0 : regionalCount (dedupScore [] ([] : List RawRecord)) = 0 := rfl
    rw [hd0] at hcand
    rw [hc0]
    exact ⟨by simpa using hcand, by simpa using regionalTarget_nonneg _ h0hi⟩
  · have hlen : (sortRecs (dedupScore [] raw)).length = (dedupScore [] raw).length :=
      (sortRecs_perm _).length_eq
    have hcnt := regionalCount_select raw mn mx h0hi hhi hlh hraw
    rw [hlen] at hcnt
    have hth0 : 0 ≤ regionalTarget (max mn (min mx (dedupScore [] raw).length)) hi :=
      regionalTarget_nonneg _ h0hi
    have hmono : regionalTarget (max mn (min mx (dedupScore [] raw).length)) lo ≤
        regionalTarget (max mn (min mx (dedupScore [] raw).length)) hi :=
      regionalTarget_mono _ hlh
    rw [hcnt, pyTake_of_nonneg hth0, List.length_take, filter_india_sort_len]
    have htoNat := Int.toNat_of_nonneg hth0
    omega

/-- C6: when there are no regional candidates after dedup, the Selection is
purely global and has length `min(total, globalCandidateCount)` with
`total = max(minCount, min(maxCount, recordCount))`. -/
theorem claim6_graceful_shortage (raw : List RawRecord) (mn mx : ℕ) (lo hi : ℚ)
    (hmn : mn ≤ mx) (hreg : regionalCount (dedupScore [] raw) = 0) :
    (∀ r ∈ select_for_day raw mn mx lo hi, r.is_india = false) ∧
      (select_for_day raw mn mx lo hi).length =
        min (max mn (min mx (dedupScore [] raw).length))
          ((dedupScore [] raw).filter (fun r => !r.is_india)).length := by
  by_cases hraw : raw = []
  · subst hraw
    have hsel : select_for_day [] mn mx lo hi = [] := by rw [select_for_day]; simp
    have hd : dedupScore [] ([] : List RawRecord) = [] := rfl
    rw [hsel, hd]
    simp
  · have hI : (sortRecs (dedupScore [] raw)).filter (fun i => i.is_india) = [] :=
      List.length_eq_zero.mp ((filter_india_sort_len raw).trans hreg)
    have hGlen : ((sortRecs (dedupScore [] raw)).filter (fun i => !i.is_india)).length =
        ((dedupScore [] raw).filter (fun r => !r.is_india)).length :=
      ((sortRecs_perm _).filter _).length_eq
    have hlen : (sortRecs (dedupScore [] raw)).length = (dedupScore [] raw).length :=
      (sortRecs_perm _).length_eq
    have happ : ∀ tl selected, applyRepair ([] : List Scored) tl selected = selected := by
      intro tl selected
      unfold applyRepair
      dsimp only
      rw [if_neg]
      rintro ⟨-, h2⟩
      simp at h2
    have hgreedy : ∀ total th, greedyFill ([] : List Scored)
        ((sortRecs (dedupScore [] raw)).filter (fun i => !i.is_india)) total th =
        pyTake ((sortRecs (dedupScore [] raw)).filter (fun i => !i.is_india)) ((total : ℕ) : ℤ) := by
      intro total th
      rw [greedyFill_eq, pyTake_nil]
      simp only [List.length_nil, Nat.cast_zero, sub_zero]
      split_ifs with h
      · rw [List.nil_append]
      · have htot : (total : ℤ) = 0 := by omega
        rw [htot, pyTake_of_nonneg le_rfl]
        simp
    rw [select_pipeline raw mn mx lo hi hraw, hI, hgreedy, happ]
    constructor
    · intro r hr
      have h1 := (sortRecs_perm _).mem_iff.mp (List.mem_of_mem_take hr)
      have h2 := (pyTake_sublist _ _).subset h1
      simpa using List.of_mem_filter h2
    · set Gs := (sortRecs (dedupScore [] raw)).filter (fun i => !i.is_india) with hGs
      set T := max mn (min mx (sortRecs (dedupScore [] raw)).length) with hT
      rw [List.length_take, (sortRecs_perm _).length_eq,
        pyTake_of_nonneg (Int.natCast_nonneg _), List.length_take, Int.toNat_natCast]
      omega

/-- C8 (amended with `regionalLowRatio ≤ regionalHighRatio`): the Selection
is sorted by `(isRegional, score)` descending — every regional record
precedes every global one and scores are non-increasing within each class —
and records with equal sort keys keep their relative input order. -/
theorem claim8_ordering (raw : List RawRecord) (mn mx : ℕ) (lo hi : ℚ)
    (hmn : mn ≤ mx) (hlh : lo ≤ hi) :
    ((select_for_day raw mn mx lo hi).Pairwise fun a b =>
        (b.is_india = true → a.is_india = true) ∧
          (a.is_india = b.is_india → b.score ≤ a.score)) ∧
      ∀ k : Bool × ℚ, List.Sublist ((select_for_day raw mn mx lo hi).filter (keyIs k))
        ((raw.map mkScored).filter (keyIs k)) := by
  constructor
  · refine List.Pairwise.imp ?_ (select_sorted raw mn mx lo hi)
    intro a b hab
    unfold recGE keyLE at hab
    constructor
    · intro hb
      rcases hab with ⟨h1, -⟩ | ⟨h1, -⟩
      · simp [sortKey, hb] at h1
      · simp only [sortKey] at h1
        rw [← h1]
        exact hb
    · intro he
      rcases hab with ⟨h1, h2⟩ | ⟨-, h2⟩
      · simp only [sortKey] at h1 h2
        rw [he, h1] at h2
        exact absurd h2 (by simp)
      · simpa [sortKey] using h2
  · intro k
    by_cases hraw : raw = []
    · subst hraw
      have hsel : select_for_day [] mn mx lo hi = [] := by rw [select_for_day]; simp
      rw [hsel]
      simp
    · rw [select_pipeline_noRepair raw mn mx hlh hraw]
      refine List.Sublist.trans ((List.take_sublist _ _).filter _) ?_
      rw [sortRecs_filter_key]
      refine List.Sublist.trans ((greedyFill_sublist (sortRecs_sorted _) _ _).filter _) ?_
      rw [sortRecs_filter_key]
      exact (dedupScore_sublist raw []).filter _

/-! ### Concrete record evaluations -/

theorem mkScored_eval (t d s : String) (kw b : Bool) (n : ℕ) (q : ℚ)
    (hk : containsAny (lowerL (t ++ " " ++ d)) INDIA_KEYWORDS = kw)
    (hl : (t ++ " " ++ d).length = n)
    (hq : (if kw then (50 : ℚ) else 0) + min ((n : ℚ) / 200) 10 = q)
    (hb : decide ((50 : ℚ) ≤ q) = b) :
    mkScored ⟨t, d, s⟩ = ⟨t, d, s, q, b⟩ := by
  unfold mkScored india_score
  dsimp only
  rw [hk, hl, hq, hb]

theorem msR1 : mkScored ⟨"india", "zz", "u"⟩ = sR1 :=
  mkScored_eval "india" "zz" "u" true true 8 (1251/25) (by decide) (by decide)
    (by norm_num [min_def]) (decide_eq_true (by norm_num))

theorem msR2 : mkScored ⟨"india", "z", "u"⟩ = sR2 :=
  mkScored_eval "india" "z" "u" true true 7 (10007/200) (by decide) (by decide)
    (by norm_num [min_def]) (decide_eq_true (by norm_num))

theorem msR3 : mkScored ⟨"india", "", "u"⟩ = sR3 :=
  mkScored_eval "india" "" "u" true true 6 (5003/100) (by decide) (by decide)
    (by norm_num [min_def]) (decide_eq_true (by norm_num))

theorem msG1 : mkScored ⟨"g1", "zzzzz", "u"⟩ = sG1 :=
  mkScored_eval "g1" "zzzzz" "u" false false 8 (1/25) (by decide) (by decide)
    (by norm_num [min_def]) (decide_eq_false (by norm_num))

theorem msG2 : mkScored ⟨"g2", "zzzz", "u"⟩ = sG2 :=
  mkScored_eval "g2" "zzzz" "u" false false 7 (7/200) (by decide) (by decide)
    (by norm_num [min_def]) (decide_eq_false (by norm_num))

theorem msG3 : mkScored ⟨"g3", "zzz", "u"⟩ = sG3 :=
  mkScored_eval "g3" "zzz" "u" false false 6 (3/100) (by decide) (by decide)
    (by norm_num [min_def]) (decide_eq_false (by norm_num))

theorem msG4 : mkScored ⟨"g4", "zz", "u"⟩ = sG4 :=
  mkScored_eval "g4" "zz" "u" false false 5 (1/40) (by decide) (by decide)
    (by norm_num [min_def]) (decide_eq_false (by norm_num))

theorem msG5 : mkScored ⟨"g5", "z", "u"⟩ = sG5 :=
  mkScored_eval "g5" "z" "u" false false 4 (1/50) (by decide) (by decide)
    (by norm_num [min_def]) (decide_eq_false (by norm_num))

theorem msTA : mkScored ⟨"india", "a", "u"⟩ = sTA :=
  mkScored_eval "india" "a" "u" true true 7 (10007/200) (by decide) (by decide)
    (by norm_num [min_def]) (decide_eq_true (by norm_num))

theorem msTB : mkScored ⟨"india", "b", "u"⟩ = sTB :=
  mkScored_eval "india" "b" "u" true true 7 (10007/200) (by decide) (by decide)
    (by norm_num [min_def]) (decide_eq_true (by norm_num))

theorem msH1 : mkScored ⟨"g", "1", "u"⟩ = sH1 :=
  mkScored_eval "g" "1" "u" false false 3 (3/200) (by decide) (by decide)
    (by norm_num [min_def]) (decide_eq_false (by norm_num))

theorem msH2 : mkScored ⟨"g", "2", "u"⟩ = sH2 :=
  mkScored_eval "g" "2" "u" false false 3 (3/200) (by decide) (by decide)
    (by norm_num [min_def]) (decide_eq_false (by norm_num))

theorem scenario_scored_sorted :
    List.Sorted recGE [sR1, sR2, sR3, sG1, sG2, sG3, sG4, sG5] := by
  norm_num [List.sorted_cons, List.forall_mem_cons, recGE, keyLE, sortKey,
    sR1, sR2, sR3, sG1, sG2, sG3, sG4, sG5]

theorem scenario_eval :
    select_for_day scenarioRaw 5 5 (3/5) (7/10) = [sR1, sR2, sR3, sG1, sG2] := by
  have hraw : scenarioRaw ≠ [] := by decide
  rw [select_pipeline scenarioRaw 5 5 (3/5) (7/10) hraw]
  have hd : dedupScore [] scenarioRaw =
      [mkScored ⟨"india", "zz", "u"⟩, mkScored ⟨"india", "z", "u"⟩,
       mkScored ⟨"india", "", "u"⟩, mkScored ⟨"g1", "zzzzz", "u"⟩,
       mkScored ⟨"g2", "zzzz", "u"⟩, mkScored ⟨"g3", "zzz", "u"⟩,
       mkScored ⟨"g4", "zz", "u"⟩, mkScored ⟨"g5", "z", "u"⟩] := rfl
  rw [hd, msR1, msR2, msR3, msG1, msG2, msG3, msG4, msG5,
    sortRecs_of_sorted scenario_scored_sorted]
  rw [show max 5 (min 5 (List.length [sR1, sR2, sR3, sG1, sG2, sG3, sG4, sG5])) = 5 from rfl]
  rw [show regionalTarget 5 ((3 : ℚ)/5) = 3 from by norm_num [regionalTarget, pyInt],
    show regionalTarget 5 ((7 : ℚ)/10) = 3 from by norm_num [regionalTarget, pyInt]]
  show (sortRecs [sR1, sR2, sR3, sG1, sG2]).take 5 = _
  rw [sortRecs_of_sorted (show List.Sorted recGE [sR1, sR2, sR3, sG1, sG2] by
    norm_num [List.sorted_cons, List.forall_mem_cons, recGE, keyLE, sortKey,
      sR1, sR2, sR3, sG1, sG2])]
  rfl

theorem tie_eval : select_for_day tieRaw 2 2 1 0 = [sTB, sTA] := by
  have hraw : tieRaw ≠ [] := by decide
  rw [select_pipeline tieRaw 2 2 1 0 hraw]
  have hd : dedupScore [] tieRaw =
      [mkScored ⟨"india", "a", "u"⟩, mkScored ⟨"india", "b", "u"⟩,
       mkScored ⟨"g", "1", "u"⟩, mkScored ⟨"g", "2", "u"⟩] := rfl
  rw [hd, msTA, msTB, msH1, msH2,
    sortRecs_of_sorted (show List.Sorted recGE [sTA, sTB, sH1, sH2] by
      norm_num [List.sorted_cons, List.forall_mem_cons, recGE, keyLE, sortKey,
        sTA, sTB, sH1, sH2])]
  rw [show max 2 (min 2 (List.length [sTA, sTB, sH1, sH2])) = 2 from rfl]
  rw [show regionalTarget 2 (1 : ℚ) = 2 from by norm_num [regionalTarget, pyInt],
    show regionalTarget 2 (0 : ℚ) = 0 from by norm_num [regionalTarget, pyInt]]
  show (sortRecs [sTB, sTA]).take 2 = _
  rw [sortRecs_of_sorted (show List.Sorted recGE [sTB, sTA] by
    norm_num [List.sorted_cons, List.forall_mem_cons, recGE, keyLE, sortKey, sTA, sTB])]
  rfl

theorem pair_eval : select_for_day pairRaw 0 10 (1/2) (1/2) = [sTA] := by
  have hraw : pairRaw ≠ [] := by decide
  rw [select_pipeline pairRaw 0 10 (1/2) (1/2) hraw]
  have hd : dedupScore [] pairRaw =
      [mkScored ⟨"india", "a", "u"⟩, mkScored ⟨"india", "b", "u"⟩] := rfl
  rw [hd, msTA, msTB,
    sortRecs_of_sorted (show List.Sorted recGE [sTA, sTB] by
      norm_num [List.sorted_cons, List.forall_mem_cons, recGE, keyLE, sortKey, sTA, sTB])]
  rw [show max 0 (min 10 (List.length [sTA, sTB])) = 2 from rfl]
  rw [show regionalTarget 2 ((1 : ℚ)/2) = 1 from by norm_num [regionalTarget, pyInt]]
  show (sortRecs [sTA]).take 2 = _
  rw [sortRecs_of_sorted (show List.Sorted recGE [sTA] by simp)]
  rfl

theorem pair_eval2 :
    select_for_day [⟨"india", "a", "u"⟩] 0 10 (1/2) (1/2) = [] := by
  have hraw : ([⟨"india", "a", "u"⟩] : List RawRecord) ≠ [] := by decide
  rw [select_pipeline [⟨"india", "a", "u"⟩] 0 10 (1/2) (1/2) hraw]
  have hd : dedupScore [] [(⟨"india", "a", "u"⟩ : RawRecord)] =
      [mkScored ⟨"india", "a", "u"⟩] := rfl
  rw [hd, msTA, sortRecs_of_sorted (show List.Sorted recGE [sTA] by simp)]
  rw [show max 0 (min 10 (List.length [sTA])) = 1 from rfl]
  rw [show regionalTarget 1 ((1 : ℚ)/2) = 0 from by norm_num [regionalTarget, pyInt]]
  show (sortRecs ([] : List Scored)).take 1 = _
  rfl

theorem pair_eval_hi : select_for_day pairRaw 0 10 (1/2) 1 = [sTA, sTB] := by
  have hraw : pairRaw ≠ [] := by decide
  rw [select_pipeline pairRaw 0 10 (1/2) 1 hraw]
  have hd : dedupScore [] pairRaw =
      [mkScored ⟨"india", "a", "u"⟩, mkScored ⟨"india", "b", "u"⟩] := rfl
  rw [hd, msTA, msTB,
    sortRecs_of_sorted (show List.Sorted recGE [sTA, sTB] by
      norm_num [List.sorted_cons, List.forall_mem_cons, recGE, keyLE, sortKey, sTA, sTB])]
  rw [show max 0 (min 10 (List.length [sTA, sTB])) = 2 from rfl]
  rw [show regionalTarget 2 ((1 : ℚ)/2) = 1 from by norm_num [regionalTarget, pyInt],
    show regionalTarget 2 (1 : ℚ) = 2 from by norm_num [regionalTarget, pyInt]]
  show (sortRecs [sTA, sTB]).take 2 = _
  rw [sortRecs_of_sorted (show List.Sorted recGE [sTA, sTB] by
    norm_num [List.sorted_cons, List.forall_mem_cons, recGE, keyLE, sortKey, sTA, sTB])]
  rfl

/-- C7 counterexample: the stated scenario is impossible on this code — no
input record can ever be scored 80 (nor 65, 55, 40, 35, 30, 25 or 20),
because a score is 50 for a keyword hit plus a length bonus of at most 10,
so every score lies in [0, 10] ∪ [50, 60]. -/
theorem claim7_counterexample :
    ¬ ∃ t d s : String, (mkScored ⟨t, d, s⟩).score = 80 := by
  rintro ⟨t, d, s, h⟩
  have h1 : min (((t ++ " " ++ d).length : ℚ) / 200) 10 ≤ 10 := min_le_right _ _
  have h2 : (0 : ℚ) ≤ min (((t ++ " " ++ d).length : ℚ) / 200) 10 :=
    le_min (by positivity) (by norm_num)
  unfold mkScored india_score at h
  dsimp only at h
  split_ifs at h with hkw <;> linarith

/-- C7 (amended to achievable scores): for three regional records scored
[50.04, 50.035, 50.03] and five global records scored
[0.04, 0.035, 0.03, 0.025, 0.02] with query (5, 5, 0.6, 0.7), the engine
computes total = 5 and both targets = 3, selects all 3 regional records,
backfills the 2 best-scored global records, needs no repair (regional count
3 ≥ low target 3), and returns the records in descending score order. -/
theorem claim7_scenario :
    select_for_day scenarioRaw 5 5 (3/5) (7/10) = [sR1, sR2, sR3, sG1, sG2] ∧
      max 5 (min 5 (dedupScore [] scenarioRaw).length) = 5 ∧
      regionalTarget 5 ((3 : ℚ)/5) = 3 ∧ regionalTarget 5 ((7 : ℚ)/10) = 3 ∧
      regionalCount (select_for_day scenarioRaw 5 5 (3/5) (7/10)) = 3 ∧
      (select_for_day scenarioRaw 5 5 (3/5) (7/10)).map (fun r => r.score) =
        [1251/25, 10007/200, 5003/100, 1/25, 7/200] := by
  refine ⟨scenario_eval, rfl, by norm_num [regionalTarget, pyInt],
    by norm_num [regionalTarget, pyInt], ?_, ?_⟩
  · rw [scenario_eval]; rfl
  · rw [scenario_eval]; rfl

/-- C8 counterexample: for the query (min 2, max 2, low 1, high 0) — which
satisfies minCount ≤ maxCount — the repair pass inserts the two equal-keyed
regional records scanning backwards, so the returned Selection lists them in
reversed input order: the stable tie-break part of the claim fails. -/
theorem claim8_counterexample :
    ¬ List.Sublist ((select_for_day tieRaw 2 2 1 0).filter (keyIs (true, 10007/200)))
      ((tieRaw.map mkScored).filter (keyIs (true, 10007/200))) := by
  intro h
  rw [tie_eval] at h
  have hmap : tieRaw.map mkScored = [sTA, sTB, sH1, sH2] := by
    show [mkScored ⟨"india", "a", "u"⟩, mkScored ⟨"india", "b", "u"⟩,
      mkScored ⟨"g", "1", "u"⟩, mkScored ⟨"g", "2", "u"⟩] = _
    rw [msTA, msTB, msH1, msH2]
  rw [hmap] at h
  have hA : keyIs (true, 10007/200) sTA = true := decide_eq_true rfl
  have hB : keyIs (true, 10007/200) sTB = true := decide_eq_true rfl
  have hg1 : keyIs (true, 10007/200) sH1 = false := decide_eq_false (by simp [sortKey, sH1])
  have hg2 : keyIs (true, 10007/200) sH2 = false := decide_eq_false (by simp [sortKey, sH2])
  simp only [List.filter_cons, hA, hB, hg1, hg2, if_true, if_false, List.filter_nil] at h
  have heq := h.eq_of_length rfl
  simp [sTA, sTB] at heq

theorem claim8_ordering_witness :
    ((5 : ℕ) ≤ 5 ∧ (3 : ℚ)/5 ≤ 7/10) ∧
      (((select_for_day scenarioRaw 5 5 (3/5) (7/10)).Pairwise fun a b =>
          (b.is_india = true → a.is_india = true) ∧
            (a.is_india = b.is_india → b.score ≤ a.score)) ∧
        ∀ k : Bool × ℚ, List.Sublist
          ((select_for_day scenarioRaw 5 5 (3/5) (7/10)).filter (keyIs k))
          ((scenarioRaw.map mkScored).filter (keyIs k))) :=
  ⟨⟨le_refl 5, by norm_num⟩,
    claim8_ordering scenarioRaw 5 5 (3/5) (7/10) (le_refl 5) (by norm_num)⟩

/-- C4 counterexample: with query (min 0, max 10, low 0.5, high 0.5) — so
minCount ≤ maxCount — the engine selects one of two regional records; fed
its own output, it recomputes total = 1 and high target 0 and returns the
empty Selection, so select∘select ≠ select. -/
theorem claim4_counterexample :
    select_for_day ((select_for_day pairRaw 0 10 (1/2) (1/2)).map toRaw) 0 10 (1/2) (1/2) ≠
      select_for_day pairRaw 0 10 (1/2) (1/2) := by
  rw [pair_eval]
  rw [show ([sTA].map toRaw) = [(⟨"india", "a", "u"⟩ : RawRecord)] from rfl]
  rw [pair_eval2]
  simp

/-- C4 (amended): re-running `select_for_day` on the Selection it returned
(with the same query, `minCount ≤ maxCount`) returns that Selection
unchanged, provided the regional-high target recomputed from the returned
Selection covers all of its regional records — the condition the
counterexample shows to be necessary. -/
theorem claim4_amended (raw : List RawRecord) (mn mx : ℕ) (lo hi : ℚ) (hmn : mn ≤ mx)
    (hcover : (regionalCount (select_for_day raw mn mx lo hi) : ℤ) ≤
      regionalTarget (max mn (min mx (select_for_day raw mn mx lo hi).length)) hi) :
    select_for_day ((select_for_day raw mn mx lo hi).map toRaw) mn mx lo hi =
      select_for_day raw mn mx lo hi := by
  set sel := select_for_day raw mn mx lo hi with hseldef
  have hsort : sel.Sorted recGE := select_sorted raw mn mx lo hi
  have hnd : (sel.map recKey).Nodup := select_keys_nodup raw mn mx lo hi
  have hlenmx : sel.length ≤ mx := by
    have h := select_length_le raw mn mx lo hi
    rw [← hseldef] at h
    omega
  have hfix : ∀ r ∈ sel, mkScored (toRaw r) = r := by
    intro r hr
    obtain ⟨r0, -, he⟩ := mem_select hr
    rw [he, toRaw_mkScored]
  by_cases hemp : sel = []
  · rw [hemp]
    rw [show (([] : List Scored).map toRaw) = [] from rfl, select_for_day]
    simp
  · have hmapne : sel.map toRaw ≠ [] := fun hc => hemp (List.map_eq_nil.mp hc)
    rw [select_pipeline (sel.map toRaw) mn mx lo hi hmapne]
    have hd : dedupScore [] (sel.map toRaw) = sel := by
      have hnd2 : ((sel.map toRaw).map rawKey).Nodup := by
        rw [List.map_map]
        exact hnd
      rw [dedupScore_eq_map hnd2 (fun k _ hk => List.not_mem_nil k hk), List.map_map]
      calc sel.map (mkScored ∘ toRaw) = sel.map id :=
            List.map_congr_left fun r hr => hfix r hr
        _ = sel := List.map_id sel
    rw [hd, sortRecs_of_sorted hsort]
    have hpart := sorted_filter_partition hsort
    have hIlen : (sel.filter (fun i => i.is_india)).length +
        (sel.filter (fun i => !i.is_india)).length = sel.length := by
      rw [← List.length_append, hpart]
    have htot : sel.length ≤ max mn (min mx sel.length) := by omega
    have hcov2 : ((sel.filter (fun i => i.is_india)).length : ℤ) ≤
        regionalTarget (max mn (min mx sel.length)) hi := by
      have h := hcover
      unfold regionalCount at h
      exact h
    have hth0 : 0 ≤ regionalTarget (max mn (min mx sel.length)) hi :=
      le_trans (by positivity) hcov2
    have hItake : pyTake (sel.filter (fun i => i.is_india))
        (regionalTarget (max mn (min mx sel.length)) hi) =
        sel.filter (fun i => i.is_india) :=
      pyTake_all _ hth0 hcov2
    have hgr : greedyFill (sel.filter (fun i => i.is_india))
        (sel.filter (fun i => !i.is_india)) (max mn (min mx sel.length))
        (regionalTarget (max mn (min mx sel.length)) hi) = sel := by
      rw [greedyFill_eq, hItake]
      split_ifs with hneed
      · rw [pyTake_all _ (by omega) (by push_cast; omega)]
        exact hpart
      · have hGnil : sel.filter (fun i => !i.is_india) = [] := by
          rw [← List.length_eq_zero]
          omega
        nth_rewrite 2 [← hpart]
        rw [hGnil, List.append_nil]
    rw [hgr]
    have happ : applyRepair (sel.filter (fun i => i.is_india))
        (regionalTarget (max mn (min mx sel.length)) lo) sel = sel := by
      unfold applyRepair
      dsimp only
      rw [if_neg]
      rintro ⟨-, h2⟩
      unfold regionalCount at h2
      exact absurd h2 (lt_irrefl _)
    rw [happ, sortRecs_of_sorted hsort]
    exact List.take_of_length_le htot

theorem claim4_amended_witness :
    ((0 : ℕ) ≤ 10 ∧
      (regionalCount (select_for_day pairRaw 0 10 (1/2) 1) : ℤ) ≤
        regionalTarget (max 0 (min 10 (select_for_day pairRaw 0 10 (1/2) 1).length)) 1) ∧
      select_for_day ((select_for_day pairRaw 0 10 (1/2) 1).map toRaw) 0 10 (1/2) 1 =
        select_for_day pairRaw 0 10 (1/2) 1 := by
  have hc : (regionalCount (select_for_day pairRaw 0 10 (1/2) 1) : ℤ) ≤
      regionalTarget (max 0 (min 10 (select_for_day pairRaw 0 10 (1/2) 1).length)) 1 := by
    rw [pair_eval_hi]
    rw [show regionalCount [sTA, sTB] = 2 from rfl,
      show max 0 (min 10 (List.length [sTA, sTB])) = 2 from rfl]
    norm_num [regionalTarget, pyInt]
  exact ⟨⟨by omega, hc⟩, claim4_amended pairRaw 0 10 (1/2) 1 (by omega) hc⟩

theorem claim1_ratio_bound_witness :
    ((5 : ℕ) ≤ 5 ∧ (0 : ℚ) ≤ 3/5 ∧ (3 : ℚ)/5 ≤ 7/10 ∧ (7 : ℚ)/10 ≤ 1 ∧
      regionalTarget (max 5 (min 5 (dedupScore [] scenarioRaw).length)) ((3 : ℚ)/5) ≤
        (regionalCount (dedupScore [] scenarioRaw) : ℤ)) ∧
      (regionalTarget (max 5 (min 5 (dedupScore [] scenarioRaw).length)) ((3 : ℚ)/5) ≤
          (regionalCount (select_for_day scenarioRaw 5 5 (3/5) (7/10)) : ℤ) ∧
        (regionalCount (select_for_day scenarioRaw 5 5 (3/5) (7/10)) : ℤ) ≤
          regionalTarget (max 5 (min 5 (dedupScore [] scenarioRaw).length)) ((7 : ℚ)/10)) := by
  have hc3 : regionalCount (dedupScore [] scenarioRaw) = 3 := by
    rw [show dedupScore [] scenarioRaw =
        [mkScored ⟨"india", "zz", "u"⟩, mkScored ⟨"india", "z", "u"⟩,
         mkScored ⟨"india", "", "u"⟩, mkScored ⟨"g1", "zzzzz", "u"⟩,
         mkScored ⟨"g2", "zzzz", "u"⟩, mkScored ⟨"g3", "zzz", "u"⟩,
         mkScored ⟨"g4", "zz", "u"⟩, mkScored ⟨"g5", "z", "u"⟩] from rfl,
      msR1, msR2, msR3, msG1, msG2, msG3, msG4, msG5]
    rfl
  have hT5 : max 5 (min 5 (dedupScore [] scenarioRaw).length) = 5 := rfl
  have hcand : regionalTarget (max 5 (min 5 (dedupScore [] scenarioRaw).length)) ((3 : ℚ)/5) ≤
      (regionalCount (dedupScore [] scenarioRaw) : ℤ) := by
    rw [hc3, hT5]
    norm_num [regionalTarget, pyInt]
  exact ⟨⟨le_refl 5, by norm_num, by norm_num, by norm_num, hcand⟩,
    claim1_ratio_bound scenarioRaw 5 5 (3/5) (7/10) (le_refl 5) (by norm_num) (by norm_num)
      (by norm_num) hcand⟩

theorem claim6_graceful_shortage_witness :
    ((2 : ℕ) ≤ 2 ∧ regionalCount (dedupScore [] globalRaw) = 0) ∧
      ((∀ r ∈ select_for_day globalRaw 2 2 (3/5) (7/10), r.is_india = false) ∧
        (select_for_day globalRaw 2 2 (3/5) (7/10)).length =
          min (max 2 (min 2 (dedupScore [] globalRaw).length))
            ((dedupScore [] globalRaw).filter (fun r => !r.is_india)).length) := by
  have h0 : regionalCount (dedupScore [] globalRaw) = 0 := by
    rw [show dedupScore [] globalRaw =
        [mkScored ⟨"g1", "zzzzz", "u"⟩, mkScored ⟨"g2", "zzzz", "u"⟩,
         mkScored ⟨"g3", "zzz", "u"⟩] from rfl, msG1, msG2, msG3]
    rfl
  exact ⟨⟨le_refl 2, h0⟩, claim6_graceful_shortage globalRaw 2 2 (3/5) (7/10) (le_refl 2) h0⟩

theorem claim10_no_fabrication_witness :
    ((0 : ℕ) ≤ 5) ∧
      ((∀ r ∈ select_for_day pairRaw 0 5 (3/5) (7/10),
          ∃ r0 ∈ pairRaw, r.title = r0.title ∧ r.desc = r0.desc ∧ r.src = r0.src) ∧
        ((select_for_day pairRaw 0 5 (3/5) (7/10)).map (fun r => (r.title, r.desc))).Nodup ∧
        (select_for_day pairRaw 0 5 (3/5) (7/10)).length ≤ 5) :=
  ⟨by omega, claim10_no_fabrication pairRaw 0 5 (3/5) (7/10) (by omega)⟩
